import Mathlib

/-!
Shallow embedding of the `clink` HTTP client (src/client.go) and proofs of
the spec claims about it.

The program is a thin decorator around an HTTP transport.  External
collaborators are modelled as explicit data:

* the transport (`http.Client.Do`) is a field `HttpClient` of the client,
  a function from the (header-mutated) request and the invocation index to
  the `(response, error)` pair that invocation produces — the index models
  the fact that successive network calls may differ;
* the rate limiter's `Wait(ctx)` outcome is a parameter `limiterWait` of
  `Client.Do`, mapping the request to `none` (token granted) or
  `some err` (wait failed);
* `Do`'s observable behaviour is collected in a `DoOutcome`: the returned
  `(resp, err)` pair, the number of transport invocations, the list of
  sleep durations (nanoseconds) performed between attempts, and the
  request as mutated by header injection.
-/

namespace Clink

/-- An HTTP request, modelled by the part the client reads and writes: its
header set, an association list from key to value. -/
structure Request where
  headers : List (String × String)
deriving DecidableEq

/-- Models `req.Header.Set(key, value)`: store the value for the key,
replacing any value previously stored for that key. -/
def Request.setHeader (r : Request) (key value : String) : Request :=
  { r with headers := (key, value) :: r.headers.filter (fun p => p.1 != key) }

/-- Look up the value stored for a header key. -/
def Request.getHeader (r : Request) (key : String) : Option String :=
  (r.headers.find? (fun p => p.1 == key)).map (fun p => p.2)

/-- An HTTP response: `http.Response`, restricted to the fields the program
touches (`StatusCode` and `Body`; the body is `none` for a nil body). -/
structure Response where
  StatusCode : Int
  Body : Option String
deriving DecidableEq

/-- The data of a `rate.Limiter` as built by `rate.NewLimiter(rate.Every interval, burst)`:
the inter-request interval (nanoseconds) and the burst size.  The outcome of
its `Wait` call is environmental and is passed to `Client.Do` separately. -/
structure RateLimiter where
  every : Int
  burst : Int
deriving DecidableEq

/-- The `Client` struct from client.go.  `HttpClient` is the transport:
given the outbound request and the index of the invocation, it yields the
`(response, error)` pair that invocation returns. -/
structure Client where
  HttpClient : Request → Nat → Option Response × Option String
  Headers : List (String × String)
  RateLimiter : Option RateLimiter
  MaxRetries : Int
  ShouldRetryFunc : Option (Request → Option Response → Option String → Bool)

/-- One nanosecond count of `time.Second`. -/
def timeSecond : Int := 1000000000

/-- One nanosecond count of `time.Minute`. -/
def timeMinute : Int := 60000000000

/-- The break test of the retry loop in `Do`:
`c.ShouldRetryFunc != nil && !c.ShouldRetryFunc(req, resp, err)`. -/
def shouldBreak (c : Client) (req : Request) (resp : Option Response)
    (err : Option String) : Bool :=
  match c.ShouldRetryFunc with
  | some f => !f req resp err
  | none => false

/-- The state observable when the retry loop of `Do` exits: the captured
`(resp, err)` of the last attempt (or the initial `nil, nil` when the loop
body never ran), the number of transport invocations, and the sleep
durations (nanoseconds) performed, in order. -/
structure LoopResult where
  resp : Option Response
  err : Option String
  invocations : Nat
  sleeps : List Int
deriving DecidableEq

/-- The retry loop of `Do`:
`for attempt := 0; attempt <= c.MaxRetries; attempt++ { ... }`.
Each iteration invokes the transport, breaks if the configured predicate
returns false, and otherwise sleeps `attempt` seconds when
`attempt < c.MaxRetries`.  `resp`/`err` carry the values of the loop-outer
variables into the next iteration. -/
def doLoop (c : Client) (req : Request) (attempt : Nat) (resp : Option Response)
    (err : Option String) (invocations : Nat) (sleeps : List Int) : LoopResult :=
  if h : (attempt : Int) ≤ c.MaxRetries then
    let r := c.HttpClient req attempt
    if shouldBreak c req r.1 r.2 then
      ⟨r.1, r.2, invocations + 1, sleeps⟩
    else
      let sleeps2 := if (attempt : Int) < c.MaxRetries then
        sleeps ++ [(attempt : Int) * timeSecond] else sleeps
      doLoop c req (attempt + 1) r.1 r.2 (invocations + 1) sleeps2
  else
    ⟨resp, err, invocations, sleeps⟩
termination_by (c.MaxRetries + 1 - (attempt : Int)).toNat
decreasing_by simp_wf; omega

/-- The observable outcome of one `Do` call: the returned `(resp, err)`
pair, the number of transport invocations, the sleeps performed
(nanoseconds), and the caller's request after the in-place header
mutation. -/
structure DoOutcome where
  resp : Option Response
  err : Option String
  invocations : Nat
  sleeps : List Int
  sentReq : Request
deriving DecidableEq

/-- The header-injection prologue of `Do`:
`for key, value := range c.Headers { req.Header.Set(key, value) }`. -/
def applyHeaders (hs : List (String × String)) (r : Request) : Request :=
  hs.foldl (fun acc kv => acc.setHeader kv.1 kv.2) r

/-- The tail of `Do` after the rate-limiter gate: run the retry loop, then
wrap the captured error if it is non-nil, else return the captured
response. -/
def finishDo (c : Client) (req : Request) : DoOutcome :=
  let r := doLoop c req 0 none none 0 []
  match r.err with
  | some e => ⟨none, some ("failed to do request: " ++ e), r.invocations, r.sleeps, req⟩
  | none => ⟨r.resp, none, r.invocations, r.sleeps, req⟩

/-- `Client.Do` from client.go: inject configured headers into the request,
gate on the rate limiter when one is configured, then run the retry loop
and produce the final result.  `limiterWait` is the environmental outcome
of `c.RateLimiter.Wait(req.Context())`. -/
def Client.Do (c : Client) (limiterWait : Request → Option String)
    (req : Request) : DoOutcome :=
  let req := applyHeaders c.Headers req
  match c.RateLimiter with
  | some _ =>
    match limiterWait req with
    | some e => ⟨none, some ("failed to wait for rate limiter: " ++ e), 0, [], req⟩
    | none => finishDo c req
  | none => finishDo c req

/-- Assignment to the client's header map: `c.Headers[key] = value`
(Go map semantics: the key's previous binding, if any, is replaced). -/
def mapSet (m : List (String × String)) (key value : String) : List (String × String) :=
  (key, value) :: m.filter (fun p => p.1 != key)

/-- Lookup in the client's header map. -/
def mapGet (m : List (String × String)) (key : String) : Option String :=
  (m.find? (fun p => p.1 == key)).map (fun p => p.2)

/-- `WithHeader` option: sets one header for the client. -/
def WithHeader (key value : String) (c : Client) : Client :=
  { c with Headers := mapSet c.Headers key value }

/-- `WithHeaders` option: merges a header map into the client's headers. -/
def WithHeaders (headers : List (String × String)) (c : Client) : Client :=
  { c with Headers := headers.foldl (fun m kv => mapSet m kv.1 kv.2) c.Headers }

/-- `WithRetries` option: sets the retry count and retry predicate. -/
def WithRetries (count : Int)
    (retryFunc : Option (Request → Option Response → Option String → Bool))
    (c : Client) : Client :=
  { c with MaxRetries := count, ShouldRetryFunc := retryFunc }

/-- `WithBearerAuth` option: sets the bearer auth header. -/
def WithBearerAuth (token : String) (c : Client) : Client :=
  { c with Headers := mapSet c.Headers "Authorization" ("Bearer " ++ token) }

/-- `WithUserAgent` option: sets the user agent header. -/
def WithUserAgent (ua : String) (c : Client) : Client :=
  { c with Headers := mapSet c.Headers "User-Agent" ua }

/-- The standard base64 alphabet used by `encoding/base64.StdEncoding`. -/
def base64Chars : List Char :=
  "ABCDEFGHIJKLMNOPQRSTUVWXYZabcdefghijklmnopqrstuvwxyz0123456789+/".toList

/-- The character the standard base64 alphabet assigns to a 6-bit value. -/
def b64Char (n : Nat) : Char := base64Chars.getD n '='

/-- Base64-encode a byte sequence with the standard alphabet and `=`
padding, three input bytes to four output characters. -/
def base64EncodeList : List UInt8 → List Char
  | [] => []
  | [b0] =>
    let n := b0.toNat * 65536
    [b64Char (n / 262144), b64Char (n / 4096 % 64), '=', '=']
  | [b0, b1] =>
    let n := b0.toNat * 65536 + b1.toNat * 256
    [b64Char (n / 262144), b64Char (n / 4096 % 64), b64Char (n / 64 % 64), '=']
  | b0 :: b1 :: b2 :: rest =>
    let n := b0.toNat * 65536 + b1.toNat * 256 + b2.toNat
    b64Char (n / 262144) :: b64Char (n / 4096 % 64) :: b64Char (n / 64 % 64)
      :: b64Char (n % 64) :: base64EncodeList rest

/-- Models `base64.StdEncoding.EncodeToString`. -/
def base64Encode (bs : List UInt8) : String := String.mk (base64EncodeList bs)

/-- The UTF-8 encoding of one character (the byte layout underlying both
the Go string type and this model). -/
def utf8Bytes (ch : Char) : List UInt8 :=
  let v := ch.toNat
  if v <= 127 then [UInt8.ofNat v]
  else if v <= 2047 then
    [UInt8.ofNat (v / 64 + 192), UInt8.ofNat (v % 64 + 128)]
  else if v <= 65535 then
    [UInt8.ofNat (v / 4096 + 224), UInt8.ofNat (v / 64 % 64 + 128),
      UInt8.ofNat (v % 64 + 128)]
  else
    [UInt8.ofNat (v / 262144 + 240), UInt8.ofNat (v / 4096 % 64 + 128),
      UInt8.ofNat (v / 64 % 64 + 128), UInt8.ofNat (v % 64 + 128)]

/-- The UTF-8 bytes of a string (the Go `[]byte(s)` conversion). -/
def stringBytes (s : String) : List UInt8 := s.data.flatMap utf8Bytes

/-- `WithBasicAuth` option: sets the basic auth header from
`base64(username ":" password)`. -/
def WithBasicAuth (username password : String) (c : Client) : Client :=
  let auth := username ++ ":" ++ password
  let encodedAuth := base64Encode (stringBytes auth)
  { c with Headers := mapSet c.Headers "Authorization" ("Basic " ++ encodedAuth) }

/-- Go integer division (truncated), made total by flagging the division
by zero that panics a Go program with the runtime error it raises. -/
def goIntDiv (a b : Int) : Except String Int :=
  if b = 0 then Except.error "runtime error: integer divide by zero"
  else Except.ok (Int.tdiv a b)

/-- `WithRateLimit` option: `interval := time.Minute / time.Duration(rpm)`,
then install `rate.NewLimiter(rate.Every(interval), 1)`.  The Go division
panics when `rpm = 0`; the panic is modelled as the `Except.error` value. -/
def WithRateLimit (rpm : Int) (c : Client) : Except String Client :=
  (goIntDiv timeMinute rpm).map fun interval =>
    { c with RateLimiter := some { every := interval, burst := 1 } }

/-- The observable outcome of `ResponseToJson`: the returned error (if
any), whether the body stream was closed, and the value written to the
target on success. -/
structure JsonOutcome (T : Type) where
  err : Option String
  bodyClosed : Bool
  target : Option T
deriving DecidableEq

/-- `ResponseToJson` from client.go, with JSON decoding for the target
type abstracted as `decode` (the behaviour of `json.NewDecoder(...).Decode`).
A nil response or nil body fails early; otherwise the body is decoded and
the deferred `Body.Close()` runs on both the success and the failure
path. -/
def ResponseToJson {T : Type} (decode : String → Except String T)
    (response : Option Response) : JsonOutcome T :=
  match response with
  | none => ⟨some "response is nil", false, none⟩
  | some r =>
    match r.Body with
    | none => ⟨some "response body is nil", false, none⟩
    | some b =>
      match decode b with
      | Except.error e => ⟨some ("failed to decode response: " ++ e), true, none⟩
      | Except.ok t => ⟨none, true, some t⟩

/-- The break decision the retry loop takes right after transport
invocation `j` on request `req`. -/
def stopAt (c : Client) (req : Request) (j : Nat) : Bool :=
  shouldBreak c req (c.HttpClient req j).1 (c.HttpClient req j).2

/-- The value a configured retry predicate `f` returns on attempt `j` of a
`Do` call whose original request is `req` (the predicate sees the
header-mutated request and that attempt's transport outcome). -/
def predAt (c : Client) (f : Request → Option Response → Option String → Bool)
    (req : Request) (j : Nat) : Bool :=
  f (applyHeaders c.Headers req)
    (c.HttpClient (applyHeaders c.Headers req) j).1
    (c.HttpClient (applyHeaders c.Headers req) j).2

/-- The per-sleep duration, in nanoseconds, of the linear backoff at a
given attempt index: `time.Duration(attempt) * time.Second`. -/
def sleepAt (j : Nat) : Int := (j : Int) * timeSecond

theorem doLoop_run_aux (c : Client) (req : Request) (R : Nat)
    (hR : c.MaxRetries = (R : Int)) :
    ∀ (n a : Nat) (resp : Option Response) (err : Option String)
      (invocations : Nat) (sleeps : List Int),
      R - a = n → a ≤ R →
      (∀ j, a ≤ j → j ≤ R → stopAt c req j = false) →
      doLoop c req a resp err invocations sleeps =
        ⟨(c.HttpClient req R).1, (c.HttpClient req R).2,
          invocations + (R + 1 - a),
          sleeps ++ (List.range' a (R - a)).map sleepAt⟩ := by
  intro n
  induction n with
  | zero =>
    intro a resp err invocations sleeps hn ha hstop
    have haR : a = R := by omega
    subst haR
    have hs := hstop a le_rfl le_rfl
    rw [stopAt] at hs
    have hc : ((a : Int) ≤ c.MaxRetries) := by rw [hR]
    rw [doLoop, dif_pos hc]
    simp only [hs, if_false, Bool.false_eq_true]
    have hlt : ¬ ((a : Int) < c.MaxRetries) := by rw [hR]; omega
    rw [if_neg hlt]
    rw [doLoop, dif_neg (by rw [hR]; omega)]
    simp only [Nat.sub_self, List.range', List.map_nil, List.append_nil,
      LoopResult.mk.injEq, true_and]
    exact ⟨by omega, trivial⟩
  | succ n ih =>
    intro a resp err invocations sleeps hn ha hstop
    have haR : a < R := by omega
    have hs := hstop a le_rfl (by omega)
    rw [stopAt] at hs
    have hc : ((a : Int) ≤ c.MaxRetries) := by rw [hR]; omega
    rw [doLoop, dif_pos hc]
    simp only [hs, if_false, Bool.false_eq_true]
    have hlt : ((a : Int) < c.MaxRetries) := by rw [hR]; omega
    rw [if_pos hlt]
    rw [ih (a + 1) (c.HttpClient req a).1 (c.HttpClient req a).2 (invocations + 1)
      (sleeps ++ [(a : Int) * timeSecond]) (by omega) (by omega)
      (fun j h1 h2 => hstop j (by omega) h2)]
    simp only [LoopResult.mk.injEq, true_and]
    constructor
    · omega
    · rw [List.append_assoc]
      congr 1
      rw [show R - a = (R - (a + 1)) + 1 from by omega]
      rw [List.range'_succ]
      rw [List.map_cons]
      rfl

theorem doLoop_stop_aux (c : Client) (req : Request) (k : Nat)
    (hk : (k : Int) ≤ c.MaxRetries) (hstopk : stopAt c req k = true) :
    ∀ (n a : Nat) (resp : Option Response) (err : Option String)
      (invocations : Nat) (sleeps : List Int),
      k - a = n → a ≤ k →
      (∀ j, a ≤ j → j < k → stopAt c req j = false) →
      doLoop c req a resp err invocations sleeps =
        ⟨(c.HttpClient req k).1, (c.HttpClient req k).2,
          invocations + (k + 1 - a),
          sleeps ++ (List.range' a (k - a)).map sleepAt⟩ := by
  intro n
  induction n with
  | zero =>
    intro a resp err invocations sleeps hn ha hmid
    have hak : a = k := by omega
    subst hak
    rw [stopAt] at hstopk
    have hc : ((a : Int) ≤ c.MaxRetries) := hk
    rw [doLoop, dif_pos hc]
    simp only [hstopk, if_true]
    simp only [Nat.sub_self, List.range', List.map_nil, List.append_nil,
      LoopResult.mk.injEq, true_and]
    exact ⟨by omega, trivial⟩
  | succ n ih =>
    intro a resp err invocations sleeps hn ha hmid
    have hak : a < k := by omega
    have hs := hmid a le_rfl (by omega)
    rw [stopAt] at hs
    have hc : ((a : Int) ≤ c.MaxRetries) := by
      have : (a : Int) ≤ (k : Int) := by omega
      omega
    rw [doLoop, dif_pos hc]
    simp only [hs, if_false, Bool.false_eq_true]
    have hlt : ((a : Int) < c.MaxRetries) := by
      have : (a : Int) < (k : Int) := by omega
      omega
    rw [if_pos hlt]
    rw [ih (a + 1) (c.HttpClient req a).1 (c.HttpClient req a).2 (invocations + 1)
      (sleeps ++ [(a : Int) * timeSecond]) (by omega) (by omega)
      (fun j h1 h2 => hmid j (by omega) h2)]
    simp only [LoopResult.mk.injEq, true_and]
    constructor
    · omega
    · rw [List.append_assoc]
      congr 1
      rw [show k - a = (k - (a + 1)) + 1 from by omega]
      rw [List.range'_succ]
      rw [List.map_cons]
      rfl

theorem do_eq_finish (c : Client) (limiterWait : Request → Option String)
    (req : Request)
    (hgate : ∀ rl, c.RateLimiter = some rl →
      limiterWait (applyHeaders c.Headers req) = none) :
    c.Do limiterWait req = finishDo c (applyHeaders c.Headers req) := by
  unfold Client.Do
  cases hRL : c.RateLimiter with
  | none => rfl
  | some rl => simp only [hgate rl hRL]

theorem finishDo_invocations (c : Client) (req : Request) :
    (finishDo c req).invocations = (doLoop c req 0 none none 0 []).invocations := by
  unfold finishDo
  rcases hr : doLoop c req 0 none none 0 [] with ⟨lresp, lerr, linv, lsl⟩
  cases lerr <;> rfl

theorem finishDo_sleeps (c : Client) (req : Request) :
    (finishDo c req).sleeps = (doLoop c req 0 none none 0 []).sleeps := by
  unfold finishDo
  rcases hr : doLoop c req 0 none none 0 [] with ⟨lresp, lerr, linv, lsl⟩
  cases lerr <;> rfl

theorem finishDo_sentReq (c : Client) (req : Request) :
    (finishDo c req).sentReq = req := by
  unfold finishDo
  rcases hr : doLoop c req 0 none none 0 [] with ⟨lresp, lerr, linv, lsl⟩
  cases lerr <;> rfl

theorem do_sentReq (c : Client) (limiterWait : Request → Option String)
    (req : Request) :
    (c.Do limiterWait req).sentReq = applyHeaders c.Headers req := by
  unfold Client.Do
  cases hRL : c.RateLimiter with
  | none => simp only [finishDo_sentReq]
  | some rl =>
    cases hlw : limiterWait (applyHeaders c.Headers req) with
    | none => simp only [hlw, finishDo_sentReq]
    | some e => simp only [hlw]

theorem find?_filter_eq (l : List (String × String)) (key other : String)
    (hne : other ≠ key) :
    (l.filter (fun p => p.1 != other)).find? (fun p => p.1 == key) =
      l.find? (fun p => p.1 == key) := by
  induction l with
  | nil => rfl
  | cons a l ih =>
    by_cases hq : a.1 = other
    · have h1 : (a.1 != other) = false := by simp [hq]
      have h2 : (a.1 == key) = false := by simp [hq, hne]
      rw [List.filter_cons_of_neg (by simp [h1])]
      rw [List.find?_cons_of_neg _ (by simp [h2])]
      exact ih
    · rw [List.filter_cons_of_pos (by simp [hq])]
      by_cases hk : a.1 = key
      · rw [List.find?_cons_of_pos _ (by simp [hk]), List.find?_cons_of_pos _ (by simp [hk])]
      · rw [List.find?_cons_of_neg _ (by simp [hk]), List.find?_cons_of_neg _ (by simp [hk])]
        exact ih

theorem getHeader_setHeader_self (r : Request) (k v : String) :
    (r.setHeader k v).getHeader k = some v := by
  simp [Request.setHeader, Request.getHeader]

theorem getHeader_setHeader_other (r : Request) (k k2 v : String) (h : k ≠ k2) :
    (r.setHeader k2 v).getHeader k = r.getHeader k := by
  unfold Request.setHeader Request.getHeader
  rw [List.find?_cons_of_neg _ (by simp [Ne.symm h])]
  rw [find?_filter_eq r.headers k k2 (Ne.symm h)]

theorem applyHeaders_cons (a : String × String) (t : List (String × String))
    (r : Request) :
    applyHeaders (a :: t) r = applyHeaders t (r.setHeader a.1 a.2) := rfl

theorem applyHeaders_getHeader_not_mem (hs : List (String × String))
    (r : Request) (k : String) (h : ∀ p ∈ hs, p.1 ≠ k) :
    (applyHeaders hs r).getHeader k = r.getHeader k := by
  induction hs generalizing r with
  | nil => rfl
  | cons a t ih =>
    rw [applyHeaders_cons, ih _ (fun p hp => h p (List.mem_cons_of_mem a hp))]
    exact getHeader_setHeader_other r k a.1 a.2 (Ne.symm (h a (List.mem_cons_self a t)))

theorem applyHeaders_getHeader_mem (hs : List (String × String)) (r : Request)
    (k v : String) (huniq : hs.Pairwise (fun p q => p.1 ≠ q.1))
    (hmem : (k, v) ∈ hs) :
    (applyHeaders hs r).getHeader k = some v := by
  induction hs generalizing r with
  | nil => cases hmem
  | cons a t ih =>
    rw [applyHeaders_cons]
    rcases List.mem_cons.mp hmem with heq | hm
    · subst heq
      have hnot : ∀ p ∈ t, p.1 ≠ k :=
        fun p hp => Ne.symm ((List.pairwise_cons.mp huniq).1 p hp)
      rw [applyHeaders_getHeader_not_mem t _ k hnot]
      exact getHeader_setHeader_self r k v
    · exact ih (r.setHeader a.1 a.2) (List.pairwise_cons.mp huniq).2 hm

/-- C1: for a client with no retry predicate configured
(`ShouldRetryFunc` is nil) and `MaxRetries = R ≥ 0`, a `Do` call that
passes the rate-limiter admission gate invokes the transport exactly
`R + 1` times, regardless of whether each attempt returns a response or
an error — there is no early exit on success. -/
theorem do_no_predicate_invocations (c : Client)
    (limiterWait : Request → Option String) (req : Request) (R : Nat)
    (hnone : c.ShouldRetryFunc = none) (hR : c.MaxRetries = (R : Int))
    (hgate : ∀ rl, c.RateLimiter = some rl →
      limiterWait (applyHeaders c.Headers req) = none) :
    (c.Do limiterWait req).invocations = R + 1 := by
  rw [do_eq_finish c limiterWait req hgate, finishDo_invocations]
  rw [doLoop_run_aux c (applyHeaders c.Headers req) R hR R 0 none none 0 []
    (by omega) (by omega)
    (fun j h1 h2 => by simp [stopAt, shouldBreak, hnone])]
  show 0 + (R + 1 - 0) = R + 1
  omega

theorem do_no_predicate_invocations_witness :
    (Client.Do
      { HttpClient := fun _ _ => (none, some "boom"), Headers := [],
        RateLimiter := none, MaxRetries := 2, ShouldRetryFunc := none }
      (fun _ => none) ⟨[]⟩).invocations = 3 :=
  do_no_predicate_invocations _ (fun _ => none) ⟨[]⟩ 2 rfl rfl
    (fun _rl h => Option.noConfusion h)

/-- C2: for a client with a retry predicate configured, if the predicate
first returns false on attempt `k ≤ MaxRetries`, `Do` stops the loop
right there and performs exactly `k + 1` transport invocations; and a
false predicate result is the only early exit: a configured predicate
that never returns false through attempt `MaxRetries` yields all
`MaxRetries + 1` invocations (second conjunct). -/
theorem do_predicate_first_stop (c : Client)
    (limiterWait : Request → Option String) (req : Request)
    (f : Request → Option Response → Option String → Bool) (R k : Nat)
    (hf : c.ShouldRetryFunc = some f) (hR : c.MaxRetries = (R : Int))
    (hgate : ∀ rl, c.RateLimiter = some rl →
      limiterWait (applyHeaders c.Headers req) = none)
    (hkR : k ≤ R)
    (hbefore : ∀ j, j < k → predAt c f req j = true)
    (hk : predAt c f req k = false) :
    (c.Do limiterWait req).invocations = k + 1 ∧
    ∀ (c2 : Client) (lw2 : Request → Option String) (req2 : Request)
      (g : Request → Option Response → Option String → Bool) (R2 : Nat),
      c2.ShouldRetryFunc = some g → c2.MaxRetries = (R2 : Int) →
      (∀ rl, c2.RateLimiter = some rl →
        lw2 (applyHeaders c2.Headers req2) = none) →
      (∀ j, j ≤ R2 → predAt c2 g req2 j = true) →
      (c2.Do lw2 req2).invocations = R2 + 1 := by
  constructor
  · rw [do_eq_finish c limiterWait req hgate, finishDo_invocations]
    rw [doLoop_stop_aux c (applyHeaders c.Headers req) k
      (by rw [hR]; omega)
      (by rw [predAt] at hk; simp [stopAt, shouldBreak, hf, hk])
      k 0 none none 0 [] (by omega) (by omega)
      (fun j h1 h2 => by
        have hb := hbefore j h2
        rw [predAt] at hb
        simp [stopAt, shouldBreak, hf, hb])]
    show 0 + (k + 1 - 0) = k + 1
    omega
  · intro c2 lw2 req2 g R2 hg hR2 hgate2 hcont
    rw [do_eq_finish c2 lw2 req2 hgate2, finishDo_invocations]
    rw [doLoop_run_aux c2 (applyHeaders c2.Headers req2) R2 hR2 R2 0
      none none 0 [] (by omega) (by omega)
      (fun j h1 h2 => by
        have hb := hcont j h2
        rw [predAt] at hb
        simp [stopAt, shouldBreak, hg, hb])]
    show 0 + (R2 + 1 - 0) = R2 + 1
    omega

theorem do_predicate_first_stop_witness :
    (Client.Do
      { HttpClient := fun _ _ => (none, none), Headers := [],
        RateLimiter := none, MaxRetries := 5,
        ShouldRetryFunc := some (fun _ _ _ => false) }
      (fun _ => none) ⟨[]⟩).invocations = 1 :=
  (do_predicate_first_stop _ (fun _ => none) ⟨[]⟩ (fun _ _ _ => false) 5 0
    rfl rfl (fun _rl h => Option.noConfusion h) (by omega)
    (fun j hj => absurd hj (Nat.not_lt_zero j)) rfl).1

/-- C3: every key/value pair of the client's configured header map (whose
keys are pairwise distinct, as Go map keys are) ends up on the request
`Do` dispatches, overwriting any value the caller had set for that key;
and the request carrying the injected headers is exactly the one the
rate-limiter gate and every transport invocation receive (second
conjunct: the mutation happens before both). -/
theorem do_header_overwrite (c : Client)
    (limiterWait : Request → Option String) (req : Request) (k v : String)
    (huniq : c.Headers.Pairwise (fun p q => p.1 ≠ q.1))
    (hmem : (k, v) ∈ c.Headers) :
    ((c.Do limiterWait req).sentReq).getHeader k = some v ∧
    (c.Do limiterWait req).sentReq = applyHeaders c.Headers req := by
  refine ⟨?_, do_sentReq c limiterWait req⟩
  rw [do_sentReq c limiterWait req]
  exact applyHeaders_getHeader_mem c.Headers req k v huniq hmem

theorem do_header_overwrite_witness :
    ((Client.Do
      { HttpClient := fun _ _ => (none, none),
        Headers := [("Authorization", "Bearer tok")],
        RateLimiter := none, MaxRetries := 0, ShouldRetryFunc := none }
      (fun _ => none) ⟨[("Authorization", "old")]⟩).sentReq).getHeader
        "Authorization" = some "Bearer tok" :=
  (do_header_overwrite _ (fun _ => none) ⟨[("Authorization", "old")]⟩
    "Authorization" "Bearer tok" (by simp) (by simp)).1

/-- C5: if a rate limiter is configured and its wait fails with error `e`
on the dispatched request, `Do` fails immediately with the wrapped
"failed to wait for rate limiter" error and the transport is never
invoked (zero invocations, no sleeps); and when no rate limiter is
configured the gate step is a no-op: `Do` is exactly the header-mutated
retry pipeline (second conjunct). -/
theorem do_rate_limiter_gate (c : Client)
    (limiterWait : Request → Option String) (req : Request)
    (rl : RateLimiter) (e : String)
    (hrl : c.RateLimiter = some rl)
    (hw : limiterWait (applyHeaders c.Headers req) = some e) :
    c.Do limiterWait req =
      ⟨none, some ("failed to wait for rate limiter: " ++ e), 0, [],
        applyHeaders c.Headers req⟩ ∧
    ∀ (c2 : Client) (lw2 : Request → Option String) (req2 : Request),
      c2.RateLimiter = none →
      c2.Do lw2 req2 = finishDo c2 (applyHeaders c2.Headers req2) := by
  constructor
  · unfold Client.Do
    simp only [hrl, hw]
  · intro c2 lw2 req2 h2
    unfold Client.Do
    simp only [h2]

theorem do_rate_limiter_gate_witness :
    Client.Do
      { HttpClient := fun _ _ => (none, none), Headers := [],
        RateLimiter := some { every := 1000000000, burst := 1 },
        MaxRetries := 3, ShouldRetryFunc := none }
      (fun _ => some "context canceled") ⟨[]⟩ =
      ⟨none, some "failed to wait for rate limiter: context canceled",
        0, [], ⟨[]⟩⟩ :=
  (do_rate_limiter_gate _ (fun _ => some "context canceled") ⟨[]⟩
    { every := 1000000000, burst := 1 } "context canceled" rfl rfl).1

/-- C6: the sleeps `Do` performs are exactly the linear backoff: with no
predicate configured and `MaxRetries = R`, one sleep after each attempt
`0, …, R-1` (none after the last), the sleep after attempt `j` lasting
exactly `j` seconds — no jitter, no cap, no exponential growth; with a
predicate that first returns false at attempt `k`, the sleeps are those
after attempts `0, …, k-1` only (the break skips the delay; second
conjunct). -/
theorem do_linear_backoff (c : Client)
    (limiterWait : Request → Option String) (req : Request) (R : Nat)
    (hnone : c.ShouldRetryFunc = none) (hR : c.MaxRetries = (R : Int))
    (hgate : ∀ rl, c.RateLimiter = some rl →
      limiterWait (applyHeaders c.Headers req) = none) :
    (c.Do limiterWait req).sleeps = (List.range R).map sleepAt ∧
    ∀ (c2 : Client) (lw2 : Request → Option String) (req2 : Request)
      (g : Request → Option Response → Option String → Bool) (R2 k : Nat),
      c2.ShouldRetryFunc = some g → c2.MaxRetries = (R2 : Int) →
      (∀ rl, c2.RateLimiter = some rl →
        lw2 (applyHeaders c2.Headers req2) = none) →
      k ≤ R2 →
      (∀ j, j < k → predAt c2 g req2 j = true) →
      predAt c2 g req2 k = false →
      (c2.Do lw2 req2).sleeps = (List.range k).map sleepAt := by
  constructor
  · rw [do_eq_finish c limiterWait req hgate, finishDo_sleeps]
    rw [doLoop_run_aux c (applyHeaders c.Headers req) R hR R 0 none none 0 []
      (by omega) (by omega)
      (fun j h1 h2 => by simp [stopAt, shouldBreak, hnone])]
    show [] ++ (List.range' 0 (R - 0)).map sleepAt = (List.range R).map sleepAt
    simp [List.range_eq_range']
  · intro c2 lw2 req2 g R2 k hg hR2 hgate2 hkR hbefore hk
    rw [do_eq_finish c2 lw2 req2 hgate2, finishDo_sleeps]
    rw [doLoop_stop_aux c2 (applyHeaders c2.Headers req2) k
      (by rw [hR2]; omega)
      (by rw [predAt] at hk; simp [stopAt, shouldBreak, hg, hk])
      k 0 none none 0 [] (by omega) (by omega)
      (fun j h1 h2 => by
        have hb := hbefore j h2
        rw [predAt] at hb
        simp [stopAt, shouldBreak, hg, hb])]
    show [] ++ (List.range' 0 (k - 0)).map sleepAt = (List.range k).map sleepAt
    simp [List.range_eq_range']

theorem do_linear_backoff_witness :
    (Client.Do
      { HttpClient := fun _ _ => (none, some "boom"), Headers := [],
        RateLimiter := none, MaxRetries := 2, ShouldRetryFunc := none }
      (fun _ => none) ⟨[]⟩).sleeps = [0, 1000000000] := by
  rw [(do_linear_backoff _ (fun _ => none) ⟨[]⟩ 2 rfl rfl
    (fun _rl h => Option.noConfusion h)).1]
  decide

/-- C9: for a client whose `MaxRetries` is negative, the retry loop body
never runs, so `Do` returns a nil response together with a nil error, with
zero transport invocations and no sleeps — after still mutating the
request's headers and passing the rate-limiter gate. -/
theorem do_negative_max_retries (c : Client)
    (limiterWait : Request → Option String) (req : Request)
    (hneg : c.MaxRetries < 0)
    (hgate : ∀ rl, c.RateLimiter = some rl →
      limiterWait (applyHeaders c.Headers req) = none) :
    c.Do limiterWait req = ⟨none, none, 0, [], applyHeaders c.Headers req⟩ := by
  rw [do_eq_finish c limiterWait req hgate]
  unfold finishDo
  rw [doLoop, dif_neg (by omega)]

theorem do_negative_max_retries_witness :
    Client.Do
      { HttpClient := fun _ _ => (some { StatusCode := 200, Body := none }, none),
        Headers := [], RateLimiter := none, MaxRetries := -1,
        ShouldRetryFunc := none }
      (fun _ => none) ⟨[("A", "b")]⟩ =
      ⟨none, none, 0, [], ⟨[("A", "b")]⟩⟩ :=
  do_negative_max_retries _ (fun _ => none) ⟨[("A", "b")]⟩ (by decide)
    (fun _rl h => Option.noConfusion h)

/-- C4: after the retry loop exits, `Do` returns a wrapped
"failed to do request" error exactly when the loop's last captured error
is non-nil, and otherwise returns the loop's last captured response —
with no inspection of its status code; moreover (second conjunct) with no
predicate configured the whole outcome depends only on what the transport
returns on the final attempt `MaxRetries`: errors and responses of all
earlier attempts are discarded and never surfaced. -/
theorem do_final_result (c : Client)
    (limiterWait : Request → Option String) (req : Request)
    (hgate : ∀ rl, c.RateLimiter = some rl →
      limiterWait (applyHeaders c.Headers req) = none) :
    ((c.Do limiterWait req).err =
        Option.map (fun e => "failed to do request: " ++ e)
          (doLoop c (applyHeaders c.Headers req) 0 none none 0 []).err ∧
      (c.Do limiterWait req).resp =
        (if (doLoop c (applyHeaders c.Headers req) 0 none none 0 []).err.isSome
          then none
          else (doLoop c (applyHeaders c.Headers req) 0 none none 0 []).resp)) ∧
    ∀ (R : Nat) (t2 : Request → Nat → Option Response × Option String),
      c.ShouldRetryFunc = none → c.MaxRetries = (R : Int) →
      t2 (applyHeaders c.Headers req) R =
        c.HttpClient (applyHeaders c.Headers req) R →
      Client.Do { c with HttpClient := t2 } limiterWait req =
        c.Do limiterWait req := by
  constructor
  · rw [do_eq_finish c limiterWait req hgate]
    unfold finishDo
    rcases hr : doLoop c (applyHeaders c.Headers req) 0 none none 0 []
      with ⟨lresp, lerr, linv, lsl⟩
    cases lerr <;> simp
  · intro R t2 hnone hR ht2
    rw [do_eq_finish { c with HttpClient := t2 } limiterWait req hgate]
    rw [do_eq_finish c limiterWait req hgate]
    unfold finishDo
    rw [doLoop_run_aux { c with HttpClient := t2 }
      (applyHeaders c.Headers req) R hR R 0 none none 0 []
      (by omega) (by omega)
      (fun j h1 h2 => by simp [stopAt, shouldBreak, hnone])]
    rw [doLoop_run_aux c (applyHeaders c.Headers req) R hR R 0 none none 0 []
      (by omega) (by omega)
      (fun j h1 h2 => by simp [stopAt, shouldBreak, hnone])]
    have hproj : Client.HttpClient { c with HttpClient := t2 } = t2 := rfl
    rw [hproj, ht2]

theorem do_final_result_witness :
    (Client.Do
      { HttpClient := fun _ _ => (none, some "boom"), Headers := [],
        RateLimiter := none, MaxRetries := 0, ShouldRetryFunc := none }
      (fun _ => none) ⟨[]⟩).err = some "failed to do request: boom" := by
  rw [(do_final_result
    { HttpClient := fun _ _ => (none, some "boom"), Headers := [],
      RateLimiter := none, MaxRetries := 0, ShouldRetryFunc := none }
    (fun _ => none) ⟨[]⟩ (fun _rl h => Option.noConfusion h)).1.1]
  rw [doLoop_run_aux
    { HttpClient := fun _ _ => (none, some "boom"), Headers := [],
      RateLimiter := none, MaxRetries := 0, ShouldRetryFunc := none }
    _ 0 rfl 0 0 none none 0 [] rfl (Nat.le_refl 0)
    (fun j h1 h2 => rfl)]
  rfl

/-- C7: `ResponseToJson` returns the error "response is nil" on a nil
response and "response body is nil" on a nil body (closing nothing, as no
body exists on those paths); when the body is present it is closed on
every exit path, the decode failure surfaces as a
"failed to decode response" error, and a decode success returns no error
and stores the decoded value in the target. -/
theorem responseToJson_spec {T : Type} (decode : String → Except String T)
    (response : Option Response) :
    (response = none →
      ResponseToJson decode response = ⟨some "response is nil", false, none⟩) ∧
    (∀ r, response = some r → r.Body = none →
      ResponseToJson decode response =
        ⟨some "response body is nil", false, none⟩) ∧
    (∀ r b, response = some r → r.Body = some b →
      (ResponseToJson decode response).bodyClosed = true ∧
      (∀ e, decode b = Except.error e →
        (ResponseToJson decode response).err =
          some ("failed to decode response: " ++ e)) ∧
      (∀ t, decode b = Except.ok t →
        (ResponseToJson decode response).err = none ∧
        (ResponseToJson decode response).target = some t)) := by
  refine ⟨?_, ?_, ?_⟩
  · intro h
    subst h
    rfl
  · intro r hr hb
    subst hr
    simp [ResponseToJson, hb]
  · intro r b hr hb
    subst hr
    refine ⟨?_, ?_, ?_⟩
    · rcases hd : decode b with e | t <;> simp [ResponseToJson, hb, hd]
    · intro e hd
      simp [ResponseToJson, hb, hd]
    · intro t hd
      simp [ResponseToJson, hb, hd]

theorem responseToJson_spec_witness :
    ResponseToJson (fun s => if s = "7" then Except.ok 7 else Except.error "EOF")
      (none : Option Response) = ⟨some "response is nil", false, none⟩ ∧
    ResponseToJson (fun s => if s = "7" then Except.ok 7 else Except.error "EOF")
      (some { StatusCode := 200, Body := none }) =
      ⟨some "response body is nil", false, none⟩ ∧
    (ResponseToJson (fun s => if s = "7" then Except.ok 7 else Except.error "EOF")
      (some { StatusCode := 200, Body := some "bad" })).err =
      some "failed to decode response: EOF" ∧
    (ResponseToJson (fun s => if s = "7" then Except.ok 7 else Except.error "EOF")
      (some { StatusCode := 200, Body := some "bad" })).bodyClosed = true ∧
    (ResponseToJson (fun s => if s = "7" then Except.ok 7 else Except.error "EOF")
      (some { StatusCode := 200, Body := some "7" })).target = some 7 := by
  refine ⟨?_, ?_, ?_, ?_, ?_⟩
  · exact (responseToJson_spec _ none).1 rfl
  · exact (responseToJson_spec _ _).2.1 _ rfl rfl
  · exact ((responseToJson_spec _ _).2.2 _ "bad" rfl rfl).2.1 "EOF" rfl
  · exact ((responseToJson_spec _ _).2.2 _ "bad" rfl rfl).1
  · exact (((responseToJson_spec _ _).2.2 _ "7" rfl rfl).2.2 7 rfl).2

/-- C8: the basic-auth option sets the client's Authorization header to
exactly "Basic " followed by the base64 encoding of
`username ++ ":" ++ password`; the second conjunct checks the encoder on
the classic example, `user:pass ↦ dXNlcjpwYXNz`. -/
theorem withBasicAuth_sets_header (username password : String) (c : Client) :
    mapGet (WithBasicAuth username password c).Headers "Authorization" =
      some ("Basic " ++
        base64Encode (stringBytes (username ++ ":" ++ password))) ∧
    base64Encode (stringBytes ("user" ++ ":" ++ "pass")) = "dXNlcjpwYXNz" := by
  constructor
  · unfold WithBasicAuth mapGet mapSet
    rw [List.find?_cons_of_pos _ (by simp)]
    rfl
  · rfl

/-- C10: calling `WithRateLimit` with zero requests per minute reaches the
interval computation `time.Minute / time.Duration(rpm)` and divides by
zero, so the option panics (modelled as the Go runtime error) instead of
producing a configured limiter; for any non-zero rate the same division
is evaluated and a limiter with the computed interval and burst 1 is
installed (second conjunct). -/
theorem withRateLimit_zero_divide (c : Client) :
    WithRateLimit 0 c = Except.error "runtime error: integer divide by zero" ∧
    ∀ rpm : Int, rpm ≠ 0 →
      WithRateLimit rpm c = Except.ok
        { c with RateLimiter := some { every := Int.tdiv timeMinute rpm, burst := 1 } } := by
  constructor
  · rfl
  · intro rpm h
    unfold WithRateLimit goIntDiv
    rw [if_neg h]
    rfl

theorem withRateLimit_zero_divide_witness :
    WithRateLimit 60
      { HttpClient := fun _ _ => (none, none), Headers := [],
        RateLimiter := none, MaxRetries := 0, ShouldRetryFunc := none } =
      Except.ok
        { HttpClient := fun _ _ => (none, none), Headers := [],
          RateLimiter := some { every := 1000000000, burst := 1 },
          MaxRetries := 0, ShouldRetryFunc := none } :=
  (withRateLimit_zero_divide _).2 60 (by decide)

end Clink
